import Mathlib

/-!
Verification of the remote-synchronization adapter (Supabase replication for RxDB).

The embedding models the adapter's three engines from `supabase-replication.js`:
the pull handler (checkpoint-ordered incremental pulls), the push handler
(optimistic-concurrency insert/update with conflict detection) and the realtime
relay callback.  The remote store is modelled as an in-memory list of rows; its
query surface (filter / order / limit / conditional update with exact count) is
given the standard relational semantics.

Strings are ordered by their character data (lexicographically), matching the
ordering a text column gives; this makes every comparison kernel-computable.
-/

namespace RxdbSupabase

/-- A row of the remote table, with its two designated columns (the
last-modified timestamp column and the primary-key column) and the
soft-delete flag.  Configurable column names are resolved to these fields. -/
structure Row where
  modified : String
  pk : String
  deleted : Bool
deriving DecidableEq, Repr

/-- The replication checkpoint: the pair stored by the orchestrator between
pulls (`SupabaseReplicationCheckpoint` in the source). -/
structure Checkpoint where
  modified : String
  primaryKeyValue : String
deriving DecidableEq, Repr

/-- Strict lexicographic order on strings, via their character lists. -/
def strLt (a b : String) : Prop := a.data < b.data

/-- Lexicographic order on strings (non-strict), via their character lists. -/
def strLe (a b : String) : Prop := a.data ≤ b.data

instance (a b : String) : Decidable (strLt a b) :=
  inferInstanceAs (Decidable (a.data < b.data))

instance (a b : String) : Decidable (strLe a b) :=
  inferInstanceAs (Decidable (a.data ≤ b.data))

/-- Strict order on rows by `(modified, primaryKey)`, the order the pull
query resumes by. -/
def keyLt (a b : Row) : Prop :=
  strLt a.modified b.modified ∨ (a.modified = b.modified ∧ strLt a.pk b.pk)

/-- Non-strict order on rows by `(modified, primaryKey)`; the sort order of
the pull query (`order(modified).order(primaryKey)`). -/
def keyLe (a b : Row) : Prop :=
  strLt a.modified b.modified ∨ (a.modified = b.modified ∧ strLe a.pk b.pk)

instance : DecidableRel keyLt := fun a b =>
  inferInstanceAs (Decidable (strLt a.modified b.modified ∨
    (a.modified = b.modified ∧ strLt a.pk b.pk)))

instance : DecidableRel keyLe := fun a b =>
  inferInstanceAs (Decidable (strLt a.modified b.modified ∨
    (a.modified = b.modified ∧ strLe a.pk b.pk)))

theorem strLt_iff_ne_of_le {a b : String} (h : strLe a b) (hne : a ≠ b) : strLt a b := by
  rcases lt_or_eq_of_le h with h1 | h1
  · exact h1
  · exact absurd (String.ext h1) hne

theorem string_ne_data_ne {a b : String} (h : a ≠ b) : a.data ≠ b.data :=
  fun hd => h (String.ext hd)

instance : IsTotal Row keyLe := by
  constructor
  intro a b
  rcases lt_trichotomy a.modified.data b.modified.data with h | h | h
  · exact Or.inl (Or.inl h)
  · have hm : a.modified = b.modified := String.ext h
    rcases le_total a.pk.data b.pk.data with hp | hp
    · exact Or.inl (Or.inr ⟨hm, hp⟩)
    · exact Or.inr (Or.inr ⟨hm.symm, hp⟩)
  · exact Or.inr (Or.inl h)

instance : IsTrans Row keyLe := by
  constructor
  intro a b c hab hbc
  rcases hab with h1 | ⟨e1, p1⟩
  · rcases hbc with h2 | ⟨e2, p2⟩
    · exact Or.inl (lt_trans h1 h2)
    · exact Or.inl (e2 ▸ h1)
  · rcases hbc with h2 | ⟨e2, p2⟩
    · exact Or.inl (e1 ▸ h2)
    · exact Or.inr ⟨e1.trans e2, le_trans p1 p2⟩

instance : IsTrans Row keyLt := by
  constructor
  intro a b c hab hbc
  rcases hab with h1 | ⟨e1, p1⟩
  · rcases hbc with h2 | ⟨e2, p2⟩
    · exact Or.inl (lt_trans h1 h2)
    · exact Or.inl (e2 ▸ h1)
  · rcases hbc with h2 | ⟨e2, p2⟩
    · exact Or.inl (e1 ▸ h2)
    · exact Or.inr ⟨e1.trans e2, lt_trans p1 p2⟩

instance : IsAntisymm Row keyLt := by
  constructor
  intro a b hab hba
  exfalso
  rcases hab with h1 | ⟨e1, p1⟩
  · rcases hba with h2 | ⟨e2, p2⟩
    · exact lt_asymm h1 h2
    · exact lt_irrefl _ (e2 ▸ h1)
  · rcases hba with h2 | ⟨e2, p2⟩
    · exact lt_irrefl _ (e1 ▸ h2)
    · exact lt_asymm p1 p2

theorem keyLt_asymm {a b : Row} (hab : keyLt a b) (hba : keyLt b a) : False := by
  have := IsAntisymm.antisymm (r := keyLt) a b hab hba
  subst this
  rcases hab with h | ⟨_, h⟩
  · exact lt_irrefl _ h
  · exact lt_irrefl _ h

theorem keyLt_irrefl (a : Row) : ¬ keyLt a a := fun h => keyLt_asymm h h

theorem keyLe_of_keyLt {a b : Row} (h : keyLt a b) : keyLe a b := by
  rcases h with h | ⟨e, p⟩
  · exact Or.inl h
  · exact Or.inr ⟨e, le_of_lt p⟩

theorem keyLt_of_keyLe_of_keyLt {a b c : Row} (hab : keyLe a b) (hbc : keyLt b c) :
    keyLt a c := by
  rcases hab with h1 | ⟨e1, p1⟩
  · rcases hbc with h2 | ⟨e2, p2⟩
    · exact Or.inl (lt_trans h1 h2)
    · exact Or.inl (e2 ▸ h1)
  · rcases hbc with h2 | ⟨e2, p2⟩
    · exact Or.inl (e1 ▸ h2)
    · exact Or.inr ⟨e1.trans e2, lt_of_le_of_lt p1 p2⟩

theorem keyLt_of_keyLt_of_keyLe {a b c : Row} (hab : keyLt a b) (hbc : keyLe b c) :
    keyLt a c := by
  rcases hab with h1 | ⟨e1, p1⟩
  · rcases hbc with h2 | ⟨e2, p2⟩
    · exact Or.inl (lt_trans h1 h2)
    · exact Or.inl (e2 ▸ h1)
  · rcases hbc with h2 | ⟨e2, p2⟩
    · exact Or.inl (e1 ▸ h2)
    · exact Or.inr ⟨e1.trans e2, lt_of_lt_of_le p1 p2⟩

theorem keyLt_of_keyLe_of_ne {a b : Row} (h : keyLe a b)
    (hne : ¬ (a.modified = b.modified ∧ a.pk = b.pk)) : keyLt a b := by
  rcases h with h1 | ⟨e1, p1⟩
  · exact Or.inl h1
  · refine Or.inr ⟨e1, ?_⟩
    rcases lt_or_eq_of_le p1 with h2 | h2
    · exact h2
    · exact absurd ⟨e1, String.ext h2⟩ hne

/-! ## Pull engine

Embedding of `pullHandler` (source lines 57-81).  The handler builds a query:
an optional `or(modified.gt.M, and(modified.eq.M, pk.gt.K))` filter — added
only when `lastCheckpoint && lastCheckpoint.modified` is truthy, i.e. the
checkpoint is present and its `modified` string is non-empty — then orders by
the modified column, then the primary-key column, and limits to `batchSize`.
`runPullQuery` gives that query the relational semantics: filter, sort
ascending by `(modified, primaryKey)`, take `batchSize`. -/

/-- The `or(...)` filter expression built from a checkpoint
(source lines 60-64). -/
structure PullFilter where
  lastModified : String
  lastPrimaryKey : String
deriving DecidableEq, Repr

/-- Semantics of the filter expression: the row is newer than the checkpoint,
or of the same age with a larger primary key. -/
def PullFilter.matches (f : PullFilter) (r : Row) : Bool :=
  decide (strLt f.lastModified r.modified) ||
    (decide (r.modified = f.lastModified) && decide (strLt f.lastPrimaryKey r.pk))

/-- The query sent by the pull handler: optional checkpoint filter plus the
row limit.  The ordering is always `(modified, primaryKey)` ascending. -/
structure PullQuery where
  orFilter : Option PullFilter
  limit : Nat
deriving DecidableEq, Repr

/-- Rows of the table satisfying the query filter (all rows if no filter). -/
def PullQuery.matchingRows (q : PullQuery) (table : List Row) : List Row :=
  match q.orFilter with
  | none => table
  | some f => table.filter f.matches

/-- Sort rows ascending by `(modified, primaryKey)`. -/
def sortRows (l : List Row) : List Row := List.insertionSort keyLe l

/-- Execute a pull query against the table: filter, order ascending by
`(modified, primaryKey)`, limit. -/
def runPullQuery (table : List Row) (q : PullQuery) : List Row :=
  (sortRows (q.matchingRows table)).take q.limit

/-- Build the pull query from the checkpoint (source lines 58-66).  The filter
is attached only when the checkpoint is present and its `modified` field is
truthy (non-empty string). -/
def buildPullQuery (lastCheckpoint : Option Checkpoint) (batchSize : Nat) : PullQuery :=
  match lastCheckpoint with
  | some c =>
    if c.modified ≠ "" then
      { orFilter := some { lastModified := c.modified, lastPrimaryKey := c.primaryKeyValue },
        limit := batchSize }
    else
      { orFilter := none, limit := batchSize }
  | none => { orFilter := none, limit := batchSize }

/-- The value returned by a pull: the new checkpoint and the pulled documents
(the same shape the realtime relay publishes). -/
structure PullResult where
  checkpoint : Option Checkpoint
  documents : List Row
deriving DecidableEq, Repr

/-- Derive a checkpoint from a row (source lines 155-160): both fields are
taken together from the same row. -/
def rowToCheckpoint (r : Row) : Checkpoint :=
  { modified := r.modified, primaryKeyValue := r.pk }

/-- Convert a row to a replicated document (source lines 152-154: identity,
the row keeps its soft-delete flag). -/
def rowToRxDoc (r : Row) : Row := r

/-- The pull handler (source lines 57-81): run the query; with no rows return
the unchanged checkpoint and no documents, otherwise derive the checkpoint
from the last row of the batch and return the rows as documents. -/
def pullHandler (table : List Row) (lastCheckpoint : Option Checkpoint)
    (batchSize : Nat) : PullResult :=
  let data := runPullQuery table (buildPullQuery lastCheckpoint batchSize)
  if h : data = [] then
    { checkpoint := lastCheckpoint, documents := [] }
  else
    { checkpoint := some (rowToCheckpoint (data.getLast h)),
      documents := data.map rowToRxDoc }

/-- Iterated pulls with a fixed batch size, feeding each returned checkpoint
into the next call, stopping at the first empty batch; returns the
concatenation of all returned document batches.  `fuel` bounds the number of
calls. -/
def pullN (table : List Row) (batchSize : Nat) :
    Option Checkpoint → Nat → List Row
  | _, 0 => []
  | c, fuel + 1 =>
    let res := pullHandler table c batchSize
    if res.documents = [] then [] else
      res.documents ++ pullN table batchSize res.checkpoint fuel

/-- Order on checkpoints: `(modified, primaryKeyValue)` lexicographic. -/
def ckptLe (c d : Checkpoint) : Prop :=
  strLt c.modified d.modified ∨
    (c.modified = d.modified ∧ strLe c.primaryKeyValue d.primaryKeyValue)

/-- Strict order on checkpoints. -/
def ckptLt (c d : Checkpoint) : Prop :=
  strLt c.modified d.modified ∨
    (c.modified = d.modified ∧ strLt c.primaryKeyValue d.primaryKeyValue)

instance (c d : Checkpoint) : Decidable (ckptLe c d) :=
  inferInstanceAs (Decidable (strLt c.modified d.modified ∨
    (c.modified = d.modified ∧ strLe c.primaryKeyValue d.primaryKeyValue)))

instance (c d : Checkpoint) : Decidable (ckptLt c d) :=
  inferInstanceAs (Decidable (strLt c.modified d.modified ∨
    (c.modified = d.modified ∧ strLt c.primaryKeyValue d.primaryKeyValue)))

/-- The specification's eligibility predicate: the row lies strictly after the
checkpoint in `(modified, primaryKey)` order. -/
def afterCkpt (c : Checkpoint) (r : Row) : Prop :=
  strLt c.modified r.modified ∨ (c.modified = r.modified ∧ strLt c.primaryKeyValue r.pk)

instance (c : Checkpoint) (r : Row) : Decidable (afterCkpt c r) :=
  inferInstanceAs (Decidable (strLt c.modified r.modified ∨
    (c.modified = r.modified ∧ strLt c.primaryKeyValue r.pk)))

theorem pullFilter_matches_iff (c : Checkpoint) (r : Row) :
    PullFilter.matches { lastModified := c.modified, lastPrimaryKey := c.primaryKeyValue } r
      = true ↔ afterCkpt c r := by
  unfold PullFilter.matches afterCkpt
  simp only [Bool.or_eq_true, Bool.and_eq_true, decide_eq_true_eq]
  constructor
  · rintro (h | ⟨he, hp⟩)
    · exact Or.inl h
    · exact Or.inr ⟨he.symm, hp⟩
  · rintro (h | ⟨he, hp⟩)
    · exact Or.inl h
    · exact Or.inr ⟨he.symm, hp⟩

/-! ## Push engine

Embedding of `pushHandler`, `handleInsertion`, `handleUpdate`,
`defaultUpdateHandler` and `fetchByPrimaryKey` (source lines 85-151).
Documents are modelled as association lists of JSON scalar values; the
designated primary-key column name is a parameter.  The remote `insert`
response is a parameter of the insertion handler (the code only branches on
it); `dbInsertResponse` gives the concrete response of a table enforcing
primary-key uniqueness. -/

/-- A JSON field value.  `structured` stands for any non-scalar value (array
or object), whose payload the default update comparator never inspects. -/
inductive JValue where
  | str (s : String)
  | num (n : Int)
  | jbool (b : Bool)
  | null
  | structured (tag : Nat)
deriving DecidableEq, Repr

/-- The JavaScript `typeof` of a value (`typeof null` is `"object"`, as are
arrays and objects). -/
def JValue.typeOf : JValue → String
  | .str _ => "string"
  | .num _ => "number"
  | .jbool _ => "boolean"
  | .null => "object"
  | .structured _ => "object"

/-- A document / table row for the push path: an association list from column
names to values. -/
abbrev Doc : Type := List (String × JValue)

/-- Value of a column in a document, if present. -/
def Doc.get (d : Doc) (field : String) : Option JValue :=
  (List.find? (fun p => p.1 == field) d).map (fun p => p.2)

/-- A pending local write handed to the push handler
(`RxReplicationWriteToMasterRow`). -/
structure PushRow where
  newDocumentState : Doc
  assumedMasterState : Option Doc

/-- A remote error as surfaced by the supabase client: carries a Postgres
error code (`"23505"` is the duplicate-key code). -/
structure DbError where
  code : String
deriving DecidableEq, Repr

/-- The errors the push path can throw. -/
inductive PushError where
  | remote (e : DbError)
  | invalidBatchSize
  | unsupportedType (t : String)
  | noRowWithGivenPrimaryKey
deriving DecidableEq, Repr

/-- The comparator kind the default update handler attaches per field:
`eq` for string/number values, `isCmp` for boolean/null values. -/
inductive Cmp where
  | eq
  | isCmp
deriving DecidableEq, Repr

/-- The response of the remote store to an insertion attempt: `none` means
success.  `dbInsertResponse` computes it for a table enforcing primary-key
uniqueness. -/
def dbInsertResponse (pk : String) (table : List Doc) (doc : Doc) : Option DbError :=
  if table.any (fun r => Doc.get r pk == Doc.get doc pk) then
    some { code := "23505" }
  else
    none

/-- `fetchByPrimaryKey` (source lines 144-151): select rows whose primary-key
column equals the given value, limit 1; throw unless exactly one row comes
back. -/
def fetchByPrimaryKey (pk : String) (table : List Doc) (v : Option JValue) :
    Except PushError Doc :=
  let data := (table.filter (fun r => Doc.get r pk == v)).take 1
  match data with
  | [r] => Except.ok r
  | _ => Except.error PushError.noRowWithGivenPrimaryKey

/-- `handleInsertion` (source lines 94-103): on success return no conflict; on
a duplicate-key error fetch the current row and return it as the conflict
result; rethrow any other error. -/
def handleInsertion (pk : String) (table : List Doc) (doc : Doc)
    (response : Option DbError) : Except PushError (List Doc) :=
  match response with
  | none => Except.ok []
  | some e =>
    if e.code = "23505" then
      (fetchByPrimaryKey pk table (Doc.get doc pk)).map (fun r => [r])
    else
      Except.error (PushError.remote e)

/-- The condition list built by `defaultUpdateHandler`'s `forEach` over the
fields of `assumedMasterState` (source lines 119-128): `eq` for string and
number values, `is` for boolean and null values, and a thrown unsupported-type
error for anything else (aborting before the query is issued). -/
def buildFilters : List (String × JValue) → Except PushError (List (String × Cmp × JValue))
  | [] => Except.ok []
  | (field, v) :: rest =>
    let t := v.typeOf
    if t = "string" ∨ t = "number" then
      (buildFilters rest).map (fun fs => (field, Cmp.eq, v) :: fs)
    else if t = "boolean" ∨ v = JValue.null then
      (buildFilters rest).map (fun fs => (field, Cmp.isCmp, v) :: fs)
    else
      Except.error (PushError.unsupportedType t)

/-- Whether a row satisfies one condition of the conditional update.  Both
`eq` (for the scalar values it is used with) and `is` (for boolean/null)
compare the column against the value. -/
def matchesFilter (r : Doc) (f : String × Cmp × JValue) : Bool :=
  Doc.get r f.1 == some f.2.2

/-- Whether a row satisfies every condition of the conditional update. -/
def matchesAll (fs : List (String × Cmp × JValue)) (r : Doc) : Bool :=
  fs.all (matchesFilter r)

/-- Apply an `UPDATE ... SET` of the new document's columns to one row. -/
def updateDoc (r : Doc) (newDoc : Doc) : Doc :=
  r.map (fun p =>
    match Doc.get newDoc p.1 with
    | some v => (p.1, v)
    | none => p)

/-- Execute the conditional update: every row satisfying all conditions is
overwritten with the new state; returns the updated table and the exact
affected-row count the query reports. -/
def runUpdate (table : List Doc) (newDoc : Doc)
    (fs : List (String × Cmp × JValue)) : List Doc × Nat :=
  (table.map (fun r => if matchesAll fs r then updateDoc r newDoc else r),
    (table.filter (matchesAll fs)).length)

/-- `defaultUpdateHandler` (source lines 117-133): build one condition per
field of the assumed state (throwing on unsupported types before any update is
issued), run the conditional update, and report whether the affected-row count
is exactly one.  Returns the updated table together with that report. -/
def defaultUpdateHandler (table : List Doc) (newDoc assumed : Doc) :
    Except PushError (List Doc × Bool) :=
  match buildFilters assumed with
  | Except.error e => Except.error e
  | Except.ok fs =>
    let res := runUpdate table newDoc fs
    Except.ok (res.1, decide (res.2 = 1))

/-- `handleUpdate` (source lines 108-113) with the default update handler: on
a positive report return no conflict, otherwise fetch the current row by the
new document's primary key and return it as the conflict result.  Returns the
table state next to the handler's result. -/
def handleUpdate (pk : String) (table : List Doc) (newDoc assumed : Doc) :
    Except PushError (List Doc × List Doc) :=
  match defaultUpdateHandler table newDoc assumed with
  | Except.error e => Except.error e
  | Except.ok (tableAfter, applied) =>
    if applied then
      Except.ok (tableAfter, [])
    else
      match fetchByPrimaryKey pk tableAfter (Doc.get newDoc pk) with
      | Except.error e => Except.error e
      | Except.ok r => Except.ok (tableAfter, [r])

/-- `pushHandler` for a single row (source lines 85-90): route to the update
path when `assumedMasterState` is present, else to the insertion path.
Returns only the conflict result. -/
def pushOne (pk : String) (table : List Doc) (row : PushRow)
    (insertResponse : Option DbError) : Except PushError (List Doc) :=
  match row.assumedMasterState with
  | some assumed =>
    (handleUpdate pk table row.newDocumentState assumed).map (fun p => p.2)
  | none => handleInsertion pk table row.newDocumentState insertResponse

/-- `pushHandler` (source lines 85-90): exactly one row per call, otherwise an
invalid-batch-size error is thrown. -/
def pushHandler (pk : String) (table : List Doc) (rows : List PushRow)
    (insertResponse : Option DbError) : Except PushError (List Doc) :=
  match rows with
  | [row] => pushOne pk table row insertResponse
  | _ => Except.error PushError.invalidBatchSize

/-! ## Realtime relay

Embedding of `watchPostgresChanges` (source lines 134-143) and `cancel`
(source lines 48-53).  The callback logic (ignore delete-tagged notifications
and payloads with no new row) is from the source; the channel's delivery
discipline is the collaborator contract of the supabase client. -/

/-- The tag of a Postgres change notification. -/
inductive PgEventType where
  | insertEvent
  | updateEvent
  | deleteEvent
deriving DecidableEq, Repr

/-- A realtime change notification: its tag and the new row, when one
exists (a physical deletion carries none). -/
structure PgPayload where
  eventType : PgEventType
  new : Option Row
deriving DecidableEq, Repr

/-- The subscription callback (source lines 135-141): delete-tagged payloads
and payloads without a new row produce nothing; any other payload is
republished as a change event in the pull result shape, with the checkpoint
derived from the payload row. -/
def realtimeCallback (p : PgPayload) : Option PullResult :=
  if p.eventType = PgEventType.deleteEvent ∨ p.new = none then
    none
  else
    match p.new with
    | some r =>
      some { checkpoint := some (rowToCheckpoint r), documents := [rowToRxDoc r] }
    | none => none

/-- An action observed by the relay: a channel notification, or the
completion of `cancel()` (which awaits the channel unsubscription before
returning, source lines 48-53). -/
inductive RelayAction where
  | event (p : PgPayload)
  | cancel

/-- Modelled from the spec: the realtime channel's delivery discipline, the
part of the subsystem living in the supabase client rather than in this
repository.  Notifications reach the callback only while the channel is
subscribed; `cancel` completes the unsubscription before it returns and never
re-enters the subscribed state. -/
def relayStep (subscribed : Bool) : RelayAction → Bool × Option PullResult
  | RelayAction.event p => (subscribed, if subscribed then realtimeCallback p else none)
  | RelayAction.cancel => (false, none)

/-- The events the relay publishes to the live-event sink along a sequence of
actions, starting from the given subscription state. -/
def relayEmits (subscribed : Bool) : List RelayAction → List PullResult
  | [] => []
  | a :: rest =>
    let s := relayStep subscribed a
    s.2.toList ++ relayEmits s.1 rest

/-- The subscription state after a sequence of actions. -/
def relayState (subscribed : Bool) : List RelayAction → Bool
  | [] => subscribed
  | a :: rest => relayState (relayStep subscribed a).1 rest

/-! ## Basic facts about the pull query -/

theorem sortRows_sorted (l : List Row) : List.Sorted keyLe (sortRows l) :=
  List.sorted_insertionSort keyLe l

theorem sortRows_perm (l : List Row) : (sortRows l).Perm l :=
  List.perm_insertionSort keyLe l

theorem rowToRxDoc_eq_id : rowToRxDoc = id := rfl

theorem pullHandler_documents (table : List Row) (c : Option Checkpoint) (b : Nat) :
    (pullHandler table c b).documents = runPullQuery table (buildPullQuery c b) := by
  by_cases h : runPullQuery table (buildPullQuery c b) = [] <;>
    simp [pullHandler, h, rowToRxDoc_eq_id]

/-! ## Sample data for concrete scenarios, witnesses and counterexamples -/

/-- A sample row with timestamp `"t"` and primary key `"2"`. -/
def rowT2 : Row := { modified := "t", pk := "2", deleted := false }

/-- A sample row with timestamp `"t"` and primary key `"3"`. -/
def rowT3 : Row := { modified := "t", pk := "3", deleted := false }

/-- A degenerate row whose modified value is the empty string. -/
def rowEmptyA : Row := { modified := "", pk := "a", deleted := false }

/-- A second degenerate row whose modified value is the empty string. -/
def rowEmptyB : Row := { modified := "", pk := "b", deleted := false }

/-- Sample remote document with `id` `"1"` and `age` `5`. -/
def docAge5 : Doc := [( "id", JValue.str "1"), ( "age", JValue.num 5)]

/-- Sample pushed state with `id` `"1"` and `age` `null`. -/
def docAgeNull : Doc := [( "id", JValue.str "1"), ( "age", JValue.null)]

/-- Sample assumed master state holding only `age: null`. -/
def assumedAgeNull : Doc := [( "age", JValue.null)]

/-- Sample document with `id` `"1"`, `name` `"x"`. -/
def docX1 : Doc := [( "id", JValue.str "1"), ( "name", JValue.str "x")]

/-- Sample document with `id` `"2"`, `name` `"x"`. -/
def docX2 : Doc := [( "id", JValue.str "2"), ( "name", JValue.str "x")]

/-- Sample new state with `id` `"1"`, `name` `"y"`. -/
def docY1 : Doc := [( "id", JValue.str "1"), ( "name", JValue.str "y")]

/-- Sample assumed master state holding only `name: "x"`. -/
def assumedNameX : Doc := [( "name", JValue.str "x")]

/-! ## C3 — result shape of a pull -/

/-- C3: a pull whose query returns zero rows yields the unchanged
`lastCheckpoint` paired with an empty document list (an ordinary result, not
an error); a pull whose query returns rows yields the checkpoint derived from
the last row of the ordered batch and exactly the returned rows as documents,
each row still carrying its soft-delete flag (`rowToRxDoc` is the
identity). -/
theorem pull_result_shape (table : List Row) (c : Option Checkpoint) (b : Nat) :
    (runPullQuery table (buildPullQuery c b) = [] →
      pullHandler table c b = { checkpoint := c, documents := [] }) ∧
    ∀ h : runPullQuery table (buildPullQuery c b) ≠ [],
      pullHandler table c b
        = { checkpoint := some (rowToCheckpoint
              ((runPullQuery table (buildPullQuery c b)).getLast h)),
            documents := runPullQuery table (buildPullQuery c b) } := by
  constructor
  · intro h
    simp [pullHandler, h]
  · intro h
    simp [pullHandler, h, rowToRxDoc_eq_id]

/-- Witness for C3 at concrete inputs: the empty table keeps the checkpoint,
and a one-row table advances it to that row. -/
theorem pull_result_shape_witness :
    pullHandler ([] : List Row) none 1 = { checkpoint := none, documents := [] } ∧
    pullHandler [rowT2] none 1
      = { checkpoint := some { modified := "t", primaryKeyValue := "2" },
          documents := [rowT2] } := by
  constructor
  · exact (pull_result_shape [] none 1).1 (by decide)
  · have h := (pull_result_shape [rowT2] none 1).2 (by decide)
    exact h.trans (by decide)

/-! ## C5 — insertion path of the push engine -/

/-- C5: an insertion that succeeds yields the empty conflict result; an
insertion failing with the Postgres duplicate-key code returns the current
remote row (the first row matching the document's primary key) as a
one-element conflict result rather than an error; any other insertion error
is propagated unchanged as a failure. -/
theorem push_insert_conflict_or_propagate (pk : String) (table : List Doc) (doc : Doc) :
    handleInsertion pk table doc none = Except.ok [] ∧
    (∀ e : DbError, e.code = "23505" → ∀ r : Doc,
      (table.filter (fun row => Doc.get row pk == Doc.get doc pk)).head? = some r →
      handleInsertion pk table doc (some e) = Except.ok [r]) ∧
    (∀ e : DbError, e.code ≠ "23505" →
      handleInsertion pk table doc (some e) = Except.error (PushError.remote e)) := by
  refine ⟨rfl, ?_, ?_⟩
  · intro e he r hr
    show (if e.code = "23505" then
        Except.map (fun r => [r]) (fetchByPrimaryKey pk table (Doc.get doc pk))
      else Except.error (PushError.remote e)) = Except.ok [r]
    rw [if_pos he]
    unfold fetchByPrimaryKey
    cases hl : List.filter (fun row => Doc.get row pk == Doc.get doc pk) table with
    | nil => rw [hl] at hr; exact absurd hr (by simp)
    | cons a tl =>
      rw [hl] at hr
      simp only [List.head?] at hr
      cases hr
      simp [List.take, Except.map]
  · intro e he
    show (if e.code = "23505" then
        Except.map (fun r => [r]) (fetchByPrimaryKey pk table (Doc.get doc pk))
      else Except.error (PushError.remote e)) = Except.error (PushError.remote e)
    rw [if_neg he]

/-- Witness for C5 at concrete inputs: success, duplicate-key conflict and an
unrelated error code. -/
theorem push_insert_conflict_or_propagate_witness :
    handleInsertion "id" [docX1] docY1 none = Except.ok [] ∧
    handleInsertion "id" [docX1] docY1 (some { code := "23505" }) = Except.ok [docX1] ∧
    handleInsertion "id" [docX1] docY1 (some { code := "500" })
      = Except.error (PushError.remote { code := "500" }) := by
  refine ⟨(push_insert_conflict_or_propagate "id" [docX1] docY1).1, ?_, ?_⟩
  · exact (push_insert_conflict_or_propagate "id" [docX1] docY1).2.1
      { code := "23505" } rfl docX1 (by rfl)
  · exact (push_insert_conflict_or_propagate "id" [docX1] docY1).2.2
      { code := "500" } (by decide)

/-! ## C9 — realtime relay -/

theorem relayEmits_unsubscribed (l : List RelayAction) : relayEmits false l = [] := by
  induction l with
  | nil => rfl
  | cons a rest ih =>
    cases a with
    | event p => simpa [relayEmits, relayStep] using ih
    | cancel => simpa [relayEmits, relayStep] using ih

theorem relayState_append (s : Bool) (l₁ l₂ : List RelayAction) :
    relayState s (l₁ ++ l₂) = relayState (relayState s l₁) l₂ := by
  induction l₁ generalizing s with
  | nil => rfl
  | cons a rest ih => simp [relayState, ih]

theorem relayEmits_append (s : Bool) (l₁ l₂ : List RelayAction) :
    relayEmits s (l₁ ++ l₂) = relayEmits s l₁ ++ relayEmits (relayState s l₁) l₂ := by
  induction l₁ generalizing s with
  | nil => rfl
  | cons a rest ih => simp [relayEmits, relayState, ih]

/-- C9: the relay never publishes an event for a delete-tagged notification,
and—because `cancel` completes the unsubscription before it returns—no event
is ever published for any action after the cancel: the events emitted along
any action sequence containing a cancel are exactly those emitted before it. -/
theorem relay_ignores_deletes_and_stops_after_cancel :
    (∀ p : PgPayload, p.eventType = PgEventType.deleteEvent → realtimeCallback p = none) ∧
    ∀ (s : Bool) (pre post : List RelayAction),
      relayEmits s (pre ++ RelayAction.cancel :: post) = relayEmits s pre := by
  constructor
  · intro p h
    unfold realtimeCallback
    rw [if_pos (Or.inl h)]
  · intro s pre post
    have h1 : pre ++ RelayAction.cancel :: post = (pre ++ [RelayAction.cancel]) ++ post := by
      simp
    rw [h1, relayEmits_append, relayEmits_append]
    have h2 : relayState s (pre ++ [RelayAction.cancel]) = false := by
      rw [relayState_append]
      rfl
    rw [h2, relayEmits_unsubscribed]
    simp [relayEmits, relayStep]

/-- Witness for C9 at concrete inputs: a delete payload produces nothing, and
an event-after-cancel sequence emits exactly what was emitted before the
cancel. -/
theorem relay_ignores_deletes_and_stops_after_cancel_witness :
    realtimeCallback { eventType := PgEventType.deleteEvent, new := some rowT2 } = none ∧
    relayEmits true
        ([RelayAction.event { eventType := PgEventType.insertEvent, new := some rowT2 }]
          ++ RelayAction.cancel
            :: [RelayAction.event { eventType := PgEventType.insertEvent, new := some rowT3 }])
      = relayEmits true
          [RelayAction.event { eventType := PgEventType.insertEvent, new := some rowT2 }] := by
  constructor
  · exact relay_ignores_deletes_and_stops_after_cancel.1
      { eventType := PgEventType.deleteEvent, new := some rowT2 } rfl
  · exact relay_ignores_deletes_and_stops_after_cancel.2 true
      [RelayAction.event { eventType := PgEventType.insertEvent, new := some rowT2 }]
      [RelayAction.event { eventType := PgEventType.insertEvent, new := some rowT3 }]

/-! ## C10 — falsy checkpoint disables the filter -/

/-- C10: a pull whose checkpoint is present but carries a falsy `modified`
value (the empty string) applies no checkpoint filter at all: it returns
exactly the documents of the no-checkpoint full initial sync, namely the
first `batchSize` rows of the whole table in `(modified, primaryKey)`
order. -/
theorem pull_falsy_modified_no_filter (table : List Row) (pkv : String) (b : Nat) :
    (pullHandler table (some { modified := "", primaryKeyValue := pkv }) b).documents
      = (pullHandler table none b).documents ∧
    (pullHandler table (some { modified := "", primaryKeyValue := pkv }) b).documents
      = (sortRows table).take b := by
  have hq : buildPullQuery (some { modified := "", primaryKeyValue := pkv }) b
      = buildPullQuery none b := by
    simp [buildPullQuery]
  constructor
  · rw [pullHandler_documents, pullHandler_documents, hq]
  · rw [pullHandler_documents, hq]
    rfl

/-! ## C8 — the default conditional-update comparator -/

/-- C8: for every field of the assumed state the default comparator builds an
equality condition for string and number values and an explicit `is`
condition for boolean and null values; any other field type (structured
values) throws a fatal unsupported-type error, aborting before the update is
issued; and pushing with assumed state `{age: null}` while the remote `age`
is `5` returns a conflict carrying the remote row with `age` `5`. -/
theorem default_comparator_types_and_null_scenario :
    (∀ (f s : String) (rest : List (String × JValue)),
      buildFilters ((f, JValue.str s) :: rest)
        = (buildFilters rest).map (fun fs => (f, Cmp.eq, JValue.str s) :: fs)) ∧
    (∀ (f : String) (n : Int) (rest : List (String × JValue)),
      buildFilters ((f, JValue.num n) :: rest)
        = (buildFilters rest).map (fun fs => (f, Cmp.eq, JValue.num n) :: fs)) ∧
    (∀ (f : String) (b : Bool) (rest : List (String × JValue)),
      buildFilters ((f, JValue.jbool b) :: rest)
        = (buildFilters rest).map (fun fs => (f, Cmp.isCmp, JValue.jbool b) :: fs)) ∧
    (∀ (f : String) (rest : List (String × JValue)),
      buildFilters ((f, JValue.null) :: rest)
        = (buildFilters rest).map (fun fs => (f, Cmp.isCmp, JValue.null) :: fs)) ∧
    (∀ (f : String) (k : Nat) (rest : List (String × JValue)),
      buildFilters ((f, JValue.structured k) :: rest)
        = Except.error (PushError.unsupportedType "object")) ∧
    (∀ (pk : String) (table : List Doc) (newDoc : Doc) (f : String) (k : Nat)
        (rest : List (String × JValue)),
      handleUpdate pk table newDoc ((f, JValue.structured k) :: rest)
        = Except.error (PushError.unsupportedType "object")) ∧
    handleUpdate "id" [docAge5] docAgeNull assumedAgeNull
      = Except.ok ([docAge5], [docAge5]) ∧
    Doc.get docAge5 "age" = some (JValue.num 5) :=
  ⟨fun _ _ _ => rfl, fun _ _ _ => rfl, fun _ _ _ => rfl, fun _ _ => rfl,
    fun _ _ _ => rfl, fun _ _ _ _ _ _ => rfl, rfl, rfl⟩

/-! ## C4 — checkpoint monotonicity -/

theorem ckptLe_refl (c : Checkpoint) : ckptLe c c := Or.inr ⟨rfl, le_refl _⟩

theorem ckptLe_of_ckptLt {c d : Checkpoint} (h : ckptLt c d) : ckptLe c d := by
  rcases h with h | ⟨e, p⟩
  · exact Or.inl h
  · exact Or.inr ⟨e, le_of_lt p⟩

theorem afterCkpt_iff_ckptLt (c : Checkpoint) (r : Row) :
    afterCkpt c r ↔ ckptLt c (rowToCheckpoint r) := Iff.rfl

/-- C4 fails as stated: over a table whose rows carry an empty (falsy)
modified value, two successive pulls — the second fed the checkpoint the
first returned — produce strictly decreasing checkpoints, because the falsy
checkpoint disables the resume filter. -/
theorem pull_checkpoint_monotone_cex :
    (pullHandler [rowEmptyA, rowEmptyB] none 2).checkpoint
      = some { modified := "", primaryKeyValue := "b" } ∧
    (pullHandler [rowEmptyA, rowEmptyB]
        (some { modified := "", primaryKeyValue := "b" }) 1).checkpoint
      = some { modified := "", primaryKeyValue := "a" } ∧
    ¬ ckptLe { modified := "", primaryKeyValue := "b" }
        { modified := "", primaryKeyValue := "a" } :=
  ⟨by decide, by decide, by decide⟩

/-- C4 amended: provided the supplied checkpoint carries a non-empty
(truthy) modified value, every pull returns a checkpoint at least as large
as the supplied one in `(modified, primaryKeyValue)` order — strictly larger
whenever documents are returned — so checkpoints are non-decreasing across
successive feedback calls; and the returned checkpoint is either the
supplied one unchanged or derived whole (both fields together) from a single
row of the table. -/
theorem pull_checkpoint_monotone (table : List Row) (c : Checkpoint) (b : Nat)
    (hmod : c.modified ≠ "") :
    ∃ d : Checkpoint, (pullHandler table (some c) b).checkpoint = some d ∧
      ckptLe c d ∧
      (d = c ∨ ∃ r ∈ table, d = rowToCheckpoint r) ∧
      ((pullHandler table (some c) b).documents ≠ [] → ckptLt c d) := by
  have hq : buildPullQuery (some c) b
      = { orFilter := some { lastModified := c.modified, lastPrimaryKey := c.primaryKeyValue },
          limit := b } := by
    simp [buildPullQuery, hmod]
  by_cases h : runPullQuery table (buildPullQuery (some c) b) = []
  · refine ⟨c, ?_, ckptLe_refl c, Or.inl rfl, ?_⟩
    · simp [pullHandler, h]
    · intro hne
      exact absurd (by simp [pullHandler, h]) hne
  · refine ⟨rowToCheckpoint ((runPullQuery table (buildPullQuery (some c) b)).getLast h),
      ?_, ?_, ?_, ?_⟩
    case _ => simp [pullHandler, h]
    all_goals
      have hx : (runPullQuery table (buildPullQuery (some c) b)).getLast h
          ∈ runPullQuery table (buildPullQuery (some c) b) := List.getLast_mem h
      have hsub : (runPullQuery table (buildPullQuery (some c) b))
          ⊆ sortRows ((buildPullQuery (some c) b).matchingRows table) :=
        List.take_subset _ _
      have hmem : (runPullQuery table (buildPullQuery (some c) b)).getLast h
          ∈ (buildPullQuery (some c) b).matchingRows table :=
        ((sortRows_perm _).mem_iff).mp (hsub hx)
      have hM : (buildPullQuery (some c) b).matchingRows table
          = table.filter (PullFilter.matches
              { lastModified := c.modified, lastPrimaryKey := c.primaryKeyValue }) := by
        rw [hq]
        rfl
      rw [hM, List.mem_filter] at hmem
      obtain ⟨hmemT, hmatch⟩ := hmem
      have hafter : afterCkpt c ((runPullQuery table (buildPullQuery (some c) b)).getLast h) :=
        (pullFilter_matches_iff c _).mp hmatch
    case _ => exact ckptLe_of_ckptLt ((afterCkpt_iff_ckptLt c _).mp hafter)
    case _ => exact Or.inr ⟨_, hmemT, rfl⟩
    case _ => exact fun _ => (afterCkpt_iff_ckptLt c _).mp hafter

/-- Witness for the amended C4 at a concrete input. -/
theorem pull_checkpoint_monotone_witness :
    (pullHandler [rowT2, rowT3] (some { modified := "s", primaryKeyValue := "9" }) 1).checkpoint
      = some { modified := "t", primaryKeyValue := "2" } ∧
    ckptLe { modified := "s", primaryKeyValue := "9" }
      { modified := "t", primaryKeyValue := "2" } ∧
    ckptLt { modified := "s", primaryKeyValue := "9" }
      { modified := "t", primaryKeyValue := "2" } := by
  obtain ⟨d, h1, h2, h3, h4⟩ := pull_checkpoint_monotone [rowT2, rowT3]
    { modified := "s", primaryKeyValue := "9" } 1 (by decide)
  have hd : d = { modified := "t", primaryKeyValue := "2" } := by
    have hconc : (pullHandler [rowT2, rowT3]
        (some { modified := "s", primaryKeyValue := "9" }) 1).checkpoint
        = some { modified := "t", primaryKeyValue := "2" } := by decide
    rw [h1] at hconc
    exact Option.some.inj hconc
  exact ⟨by decide, hd ▸ h2, hd ▸ h4 (by decide)⟩

/-! ## C6 / C7 — conditional-update path -/

theorem fetch_of_head {pk : String} {table : List Doc} {v : Option JValue} {r : Doc}
    (h : (table.filter (fun row => Doc.get row pk == v)).head? = some r) :
    fetchByPrimaryKey pk table v = Except.ok r := by
  unfold fetchByPrimaryKey
  cases hl : List.filter (fun row => Doc.get row pk == v) table with
  | nil => rw [hl] at h; exact absurd h (by simp)
  | cons a tl =>
    rw [hl] at h
    simp only [List.head?] at h
    cases h
    simp [List.take]

theorem buildFilters_str (f s : String) (rest : List (String × JValue)) :
    buildFilters ((f, JValue.str s) :: rest)
      = (buildFilters rest).map (fun fs => (f, Cmp.eq, JValue.str s) :: fs) := rfl

theorem buildFilters_num (f : String) (n : Int) (rest : List (String × JValue)) :
    buildFilters ((f, JValue.num n) :: rest)
      = (buildFilters rest).map (fun fs => (f, Cmp.eq, JValue.num n) :: fs) := rfl

theorem buildFilters_jbool (f : String) (b : Bool) (rest : List (String × JValue)) :
    buildFilters ((f, JValue.jbool b) :: rest)
      = (buildFilters rest).map (fun fs => (f, Cmp.isCmp, JValue.jbool b) :: fs) := rfl

theorem buildFilters_null (f : String) (rest : List (String × JValue)) :
    buildFilters ((f, JValue.null) :: rest)
      = (buildFilters rest).map (fun fs => (f, Cmp.isCmp, JValue.null) :: fs) := rfl

theorem buildFilters_structured (f : String) (k : Nat) (rest : List (String × JValue)) :
    buildFilters ((f, JValue.structured k) :: rest)
      = Except.error (PushError.unsupportedType "object") := rfl

theorem except_map_ok {ε α β : Type} {g : α → β} {x : Except ε α} {b : β}
    (h : x.map g = Except.ok b) : ∃ a, x = Except.ok a ∧ b = g a := by
  cases x with
  | error e => exact absurd h (by simp [Except.map])
  | ok a =>
    refine ⟨a, rfl, ?_⟩
    simpa [Except.map] using h.symm

theorem buildFilters_cons_ok {f : String} {v : JValue} {rest : List (String × JValue)}
    {fs : List (String × Cmp × JValue)}
    (h : buildFilters ((f, v) :: rest) = Except.ok fs) :
    ∃ (cm : Cmp) (tl : List (String × Cmp × JValue)),
      buildFilters rest = Except.ok tl ∧ fs = (f, cm, v) :: tl := by
  cases v with
  | str s =>
    rw [buildFilters_str] at h
    obtain ⟨tl, htl, hb⟩ := except_map_ok h
    exact ⟨Cmp.eq, tl, htl, hb⟩
  | num n =>
    rw [buildFilters_num] at h
    obtain ⟨tl, htl, hb⟩ := except_map_ok h
    exact ⟨Cmp.eq, tl, htl, hb⟩
  | jbool b =>
    rw [buildFilters_jbool] at h
    obtain ⟨tl, htl, hb⟩ := except_map_ok h
    exact ⟨Cmp.isCmp, tl, htl, hb⟩
  | null =>
    rw [buildFilters_null] at h
    obtain ⟨tl, htl, hb⟩ := except_map_ok h
    exact ⟨Cmp.isCmp, tl, htl, hb⟩
  | structured k =>
    rw [buildFilters_structured] at h
    exact absurd h (by simp)

theorem buildFilters_matches {assumed : Doc} {fs : List (String × Cmp × JValue)}
    (h : buildFilters assumed = Except.ok fs) (r : Doc) :
    matchesAll fs r = true ↔ ∀ fv ∈ assumed, Doc.get r fv.1 = some fv.2 := by
  induction assumed generalizing fs with
  | nil =>
    have hfs : fs = [] := by
      simp only [buildFilters] at h
      exact (Except.ok.inj h).symm
    subst hfs
    simp [matchesAll]
  | cons fv rest ih =>
    obtain ⟨f, v⟩ := fv
    obtain ⟨cm, tl, hrest, hfs⟩ := buildFilters_cons_ok h
    subst hfs
    simp only [matchesAll, List.all_cons, Bool.and_eq_true, List.forall_mem_cons]
    constructor
    · rintro ⟨h1, h2⟩
      exact ⟨beq_iff_eq.mp h1, (ih hrest).mp h2⟩
    · rintro ⟨h1, h2⟩
      exact ⟨beq_iff_eq.mpr h1, (ih hrest).mpr h2⟩

theorem list_map_eq_self {α : Type} {f : α → α} {l : List α} (h : ∀ a ∈ l, f a = a) :
    l.map f = l := by
  induction l with
  | nil => rfl
  | cons x xs ih =>
    rw [List.map_cons, h x (by simp), ih fun a ha => h a (by simp [ha])]

/-- C6: with an assumed master state whose fields are all expressible, the
push either applies the conditional update to exactly one row and returns the
empty conflict result, or — when zero rows match, i.e. when every remote row
differs from the assumed state in at least one field, exact match required —
leaves the table unchanged and returns the current remote row (fetched by the
new document's primary key) as a one-element conflict result, not an error.
The first conjunct characterises matching as exact per-field equality. -/
theorem push_update_one_or_zero (pk : String) (table : List Doc) (newDoc assumed : Doc)
    (fs : List (String × Cmp × JValue)) (hfs : buildFilters assumed = Except.ok fs) :
    (∀ r : Doc, matchesAll fs r = true ↔ ∀ fv ∈ assumed, Doc.get r fv.1 = some fv.2) ∧
    ((table.filter (matchesAll fs)).length = 1 →
      handleUpdate pk table newDoc assumed
        = Except.ok ((runUpdate table newDoc fs).1, [])) ∧
    ((table.filter (matchesAll fs)).length = 0 →
      (runUpdate table newDoc fs).1 = table ∧
      ∀ r : Doc,
        (table.filter (fun row => Doc.get row pk == Doc.get newDoc pk)).head? = some r →
        handleUpdate pk table newDoc assumed = Except.ok (table, [r])) := by
  refine ⟨buildFilters_matches hfs, ?_, ?_⟩
  · intro h1
    simp only [handleUpdate, defaultUpdateHandler, hfs]
    have hc : (runUpdate table newDoc fs).2 = 1 := h1
    simp [hc]
  · intro h0
    have hnone : ∀ a ∈ table, matchesAll fs a = false := by
      intro a ha
      have := List.filter_eq_nil_iff.mp (List.length_eq_zero.mp h0) a ha
      simpa using this
    have htab : (runUpdate table newDoc fs).1 = table := by
      simp only [runUpdate]
      exact list_map_eq_self fun a ha => by rw [hnone a ha]; simp
    refine ⟨htab, ?_⟩
    intro r hr
    simp only [handleUpdate, defaultUpdateHandler, hfs]
    have hc : (runUpdate table newDoc fs).2 = 0 := h0
    rw [hc]
    simp only [decide_eq_true_eq]
    rw [if_neg (by simp)]
    rw [htab, fetch_of_head hr]

/-- Witness for C6 at concrete inputs: a matching assumed state applies the
update and returns empty; a stale assumed state leaves the table unchanged
and returns the remote row as the conflict. -/
theorem push_update_one_or_zero_witness :
    handleUpdate "id" [docX1] docY1 assumedNameX = Except.ok ([docY1], []) ∧
    handleUpdate "id" [docAge5] docAgeNull assumedAgeNull
      = Except.ok ([docAge5], [docAge5]) := by
  constructor
  · have h := (push_update_one_or_zero "id" [docX1] docY1 assumedNameX
      [( "name", Cmp.eq, JValue.str "x")] rfl).2.1 (by decide)
    exact h.trans (by rfl)
  · have h := ((push_update_one_or_zero "id" [docAge5] docAgeNull assumedAgeNull
      [( "age", Cmp.isCmp, JValue.null)] rfl).2.2 (by decide)).2 docAge5 (by rfl)
    exact h

/-- C7 fails as stated: a conditional update whose conditions match two rows
affects both, yet the push returns an ordinary one-element conflict result
(the row fetched by the new document's primary key) — not a fatal error and
not a success. -/
theorem push_update_multirow_cex :
    buildFilters assumedNameX = Except.ok [( "name", Cmp.eq, JValue.str "x")] ∧
    ([docX1, docX2].filter (matchesAll [( "name", Cmp.eq, JValue.str "x")])).length = 2 ∧
    handleUpdate "id" [docX1, docX2] docY1 assumedNameX
      = Except.ok ([docY1, docY1], [docY1]) :=
  ⟨rfl, rfl, rfl⟩

/-- C7 amended: when the conditional update affects more than one row the
code does not fail fatally; the update is applied to every matching row, the
affected count differs from one, and the current row fetched by the new
document's primary key is returned as a one-element conflict result (so the
push neither errors nor reports success). -/
theorem push_update_multirow (pk : String) (table : List Doc) (newDoc assumed : Doc)
    (fs : List (String × Cmp × JValue)) (hfs : buildFilters assumed = Except.ok fs)
    (hcount : 2 ≤ (table.filter (matchesAll fs)).length) :
    ∀ r : Doc,
      ((runUpdate table newDoc fs).1.filter
          (fun row => Doc.get row pk == Doc.get newDoc pk)).head? = some r →
      handleUpdate pk table newDoc assumed
        = Except.ok ((runUpdate table newDoc fs).1, [r]) := by
  intro r hr
  simp only [handleUpdate, defaultUpdateHandler, hfs]
  have hne : (runUpdate table newDoc fs).2 ≠ 1 := by
    show (table.filter (matchesAll fs)).length ≠ 1
    omega
  simp only [decide_eq_true_eq]
  rw [if_neg hne, fetch_of_head hr]

/-- Witness for the amended C7 at the two-matching-row input. -/
theorem push_update_multirow_witness :
    handleUpdate "id" [docX1, docX2] docY1 assumedNameX
      = Except.ok ([docY1, docY1], [docY1]) := by
  have h := push_update_multirow "id" [docX1, docX2] docY1 assumedNameX
    [( "name", Cmp.eq, JValue.str "x")] rfl (by decide) docY1 (by rfl)
  exact h.trans (by rfl)

/-! ## C1 — a single pull returns the first batch of eligible rows -/

/-- Boolean form of the eligibility predicate. -/
def afterB (c : Checkpoint) : Row → Bool := fun r => decide (afterCkpt c r)

theorem matches_eq_afterB (c : Checkpoint) (r : Row) :
    PullFilter.matches { lastModified := c.modified, lastPrimaryKey := c.primaryKeyValue } r
      = afterB c r := by
  by_cases h : afterCkpt c r
  · rw [afterB, decide_eq_true h]
    exact (pullFilter_matches_iff c r).mpr h
  · rw [afterB, decide_eq_false h]
    exact Bool.eq_false_iff.mpr fun hm => h ((pullFilter_matches_iff c r).mp hm)

/-- From the spec's words: `docs` is exactly the first `b` rows, in ascending
`(modified, primaryKey)` order, among the rows of `elig`: it is sorted, its
length is `b` capped by the number of eligible rows, and the eligible rows
split into `docs` plus a remainder every member of which is at least as large
as every returned row. -/
def firstBatchSpec (elig : List Row) (b : Nat) (docs : List Row) : Prop :=
  List.Sorted keyLe docs ∧
  docs.length = min b elig.length ∧
  ∃ rest : List Row, (docs ++ rest).Perm elig ∧ ∀ x ∈ docs, ∀ y ∈ rest, keyLe x y

theorem take_sortRows_firstBatch (elig : List Row) (b : Nat) :
    firstBatchSpec elig b ((sortRows elig).take b) := by
  have hsorted := sortRows_sorted elig
  have hsplit : (sortRows elig).take b ++ (sortRows elig).drop b = sortRows elig :=
    List.take_append_drop b (sortRows elig)
  refine ⟨List.Pairwise.sublist (List.take_sublist b (sortRows elig)) hsorted, ?_, ?_⟩
  · rw [List.length_take, (sortRows_perm elig).length_eq]
  · refine ⟨(sortRows elig).drop b, ?_, ?_⟩
    · rw [hsplit]
      exact sortRows_perm elig
    · have hp : List.Pairwise keyLe ((sortRows elig).take b ++ (sortRows elig).drop b) := by
        rw [hsplit]
        exact hsorted
      exact (List.pairwise_append.mp hp).2.2

theorem buildPullQuery_truthy (c : Checkpoint) (b : Nat) (hmod : c.modified ≠ "") :
    buildPullQuery (some c) b
      = { orFilter := some { lastModified := c.modified, lastPrimaryKey := c.primaryKeyValue },
          limit := b } := by
  simp [buildPullQuery, hmod]

/-- C1 fails as stated: a present checkpoint whose `modified` field is the
empty string is ignored entirely, so the pull returns a row that the claim's
filter excludes (the eligible set is empty, yet a document is returned). -/
theorem pull_first_batch_cex :
    (pullHandler [rowEmptyA] (some { modified := "", primaryKeyValue := "z" }) 1).documents
      = [rowEmptyA] ∧
    ([rowEmptyA].filter (afterB { modified := "", primaryKeyValue := "z" })) = [] ∧
    ¬ firstBatchSpec ([rowEmptyA].filter (afterB { modified := "", primaryKeyValue := "z" })) 1
        ((pullHandler [rowEmptyA] (some { modified := "", primaryKeyValue := "z" }) 1).documents) := by
  refine ⟨by decide, by decide, ?_⟩
  rintro ⟨-, hlen, -⟩
  revert hlen
  decide

/-- C1 amended: with a present checkpoint whose `modified` field is non-empty
(truthy), the documents returned by a pull are exactly the first `batchSize`
rows, in ascending `(modified, primaryKey)` order, among the table's rows
lying strictly after the checkpoint; with no checkpoint, no filter is applied
and they are the first `batchSize` rows of the whole table in that order.
(A present checkpoint with a falsy `modified` behaves like no checkpoint.) -/
theorem pull_first_batch (table : List Row) (b : Nat) :
    (∀ c : Checkpoint, c.modified ≠ "" →
      firstBatchSpec (table.filter (afterB c)) b
        ((pullHandler table (some c) b).documents)) ∧
    firstBatchSpec table b ((pullHandler table none b).documents) := by
  constructor
  · intro c hmod
    have hdoc : (pullHandler table (some c) b).documents
        = (sortRows (table.filter (afterB c))).take b := by
      rw [pullHandler_documents, buildPullQuery_truthy c b hmod]
      show (sortRows (table.filter _)).take b = _
      rw [List.filter_congr fun x _ => matches_eq_afterB c x]
    rw [hdoc]
    exact take_sortRows_firstBatch _ b
  · have hdoc : (pullHandler table none b).documents = (sortRows table).take b := by
      rw [pullHandler_documents]
      rfl
    rw [hdoc]
    exact take_sortRows_firstBatch table b

/-- Witness for the amended C1 at a concrete input. -/
theorem pull_first_batch_witness :
    firstBatchSpec ([rowT3, rowT2].filter (afterB { modified := "s", primaryKeyValue := "9" })) 1
      ((pullHandler [rowT3, rowT2]
          (some { modified := "s", primaryKeyValue := "9" }) 1).documents) :=
  (pull_first_batch [rowT3, rowT2] 1).1
    { modified := "s", primaryKeyValue := "9" } (by decide)

/-! ## C2 — iterated pulls make one duplicate-free ordered pass -/

/-- The set of rows the pull query's filter admits (the whole table when the
checkpoint is absent or falsy). -/
def codeElig (table : List Row) (c : Option Checkpoint) (b : Nat) : List Row :=
  (buildPullQuery c b).matchingRows table

theorem buildPullQuery_limit (c : Option Checkpoint) (b : Nat) :
    (buildPullQuery c b).limit = b := by
  cases c with
  | none => rfl
  | some c =>
    simp only [buildPullQuery]
    split <;> rfl

theorem runPullQuery_eq (table : List Row) (c : Option Checkpoint) (b : Nat) :
    runPullQuery table (buildPullQuery c b) = (sortRows (codeElig table c b)).take b := by
  unfold runPullQuery codeElig
  rw [buildPullQuery_limit]

theorem codeElig_none (table : List Row) (b : Nat) : codeElig table none b = table := rfl

theorem codeElig_falsy (table : List Row) (b : Nat) (c : Checkpoint)
    (h : c.modified = "") : codeElig table (some c) b = table := by
  unfold codeElig
  have hq : buildPullQuery (some c) b = { orFilter := none, limit := b } := by
    unfold buildPullQuery
    simp [h]
  rw [hq]
  rfl

theorem codeElig_truthy (table : List Row) (b : Nat) (c : Checkpoint)
    (h : c.modified ≠ "") : codeElig table (some c) b = table.filter (afterB c) := by
  unfold codeElig
  rw [buildPullQuery_truthy c b h]
  show table.filter _ = _
  rw [List.filter_congr fun x _ => matches_eq_afterB c x]

theorem codeElig_subset (table : List Row) (c : Option Checkpoint) (b : Nat) :
    ∀ r ∈ codeElig table c b, r ∈ table := by
  cases c with
  | none => intro r hr; exact hr
  | some c =>
    by_cases h : c.modified = ""
    · rw [codeElig_falsy table b c h]; intro r hr; exact hr
    · rw [codeElig_truthy table b c h]
      intro r hr
      exact (List.mem_filter.mp hr).1

theorem strLt_empty {s : String} (h : s ≠ "") : strLt "" s := by
  show ("" : String).data < s.data
  cases hs : s.data with
  | nil => exact absurd (String.ext (by rw [hs])) h
  | cons c cs => exact List.nil_lt_cons c cs

theorem pairwise_keyLt_of_sorted {l : List Row}
    (hs : List.Sorted keyLe l) (hd : List.Pairwise (fun a r => a.pk ≠ r.pk) l) :
    List.Pairwise keyLt l :=
  (List.Pairwise.and hs hd).imp fun hab =>
    keyLt_of_keyLe_of_ne hab.1 fun hpk => hab.2 hpk.2

theorem pkne_perm {l₁ l₂ : List Row} (h : l₁.Perm l₂) :
    List.Pairwise (fun a r => a.pk ≠ r.pk) l₁ ↔
      List.Pairwise (fun a r => a.pk ≠ r.pk) l₂ :=
  List.Perm.pairwise_iff (fun hxy => hxy.symm) h

/-- On a strictly sorted list split as `T ++ D`, the rows strictly after the
last element of `T` are exactly `D`. -/
theorem filter_gt_last_append {T D : List Row} {x : Row}
    (h : List.Pairwise keyLt (T ++ D)) (hx : T.getLast? = some x) :
    (T ++ D).filter (fun r => decide (keyLt x r)) = D := by
  obtain ⟨hT, hD, hcross⟩ := List.pairwise_append.mp h
  have hTne : T ≠ [] := by
    intro h0
    rw [h0] at hx
    exact absurd hx (by simp)
  have hxval : T.getLast hTne = x := by
    have hg := List.getLast?_eq_getLast T hTne
    rw [hg] at hx
    exact Option.some.inj hx
  have hxm : x ∈ T := hxval ▸ List.getLast_mem hTne
  rw [List.filter_append]
  have h1 : T.filter (fun r => decide (keyLt x r)) = [] := by
    rw [List.filter_eq_nil_iff]
    intro a ha
    simp only [decide_eq_true_eq]
    have hTsplit : T.dropLast ++ [T.getLast hTne] = T := List.dropLast_append_getLast hTne
    rw [← hTsplit] at ha hT
    obtain ⟨hTd, _, hcross2⟩ := List.pairwise_append.mp hT
    rcases List.mem_append.mp ha with hmem | hmem
    · have hlt : keyLt a (T.getLast hTne) := hcross2 a hmem _ (by simp)
      rw [hxval] at hlt
      exact fun hxa => keyLt_asymm hxa hlt
    · have : a = T.getLast hTne := by simpa using hmem
      rw [this, hxval]
      exact keyLt_irrefl x
  have h2 : D.filter (fun r => decide (keyLt x r)) = D := by
    rw [List.filter_eq_self]
    intro a ha
    simp only [decide_eq_true_eq]
    exact hcross x hxm a ha
  rw [h1, h2, List.nil_append]

/-- On a strictly sorted list, filtering by "strictly after the last element
of the first `b` entries" yields exactly the remaining entries. -/
theorem sorted_filter_after_take {S : List Row} (hS : List.Pairwise keyLt S)
    {b : Nat} {x : Row} (hx : (S.take b).getLast? = some x) :
    S.filter (fun r => decide (keyLt x r)) = S.drop b := by
  have hsplit : S.take b ++ S.drop b = S := List.take_append_drop b S
  have h2 : List.Pairwise keyLt (S.take b ++ S.drop b) := by
    rw [hsplit]
    exact hS
  have h3 := filter_gt_last_append h2 hx
  rw [hsplit] at h3
  exact h3

/-- The checkpoint viewed as a phantom row, so that the eligibility
predicate becomes the row order. -/
def ckRow (c : Checkpoint) : Row :=
  { modified := c.modified, pk := c.primaryKeyValue, deleted := false }

theorem afterCkpt_iff_keyRow (c : Checkpoint) (r : Row) :
    afterCkpt c r ↔ keyLt (ckRow c) r := Iff.rfl

theorem afterCkpt_trans {c : Checkpoint} {x r : Row}
    (h1 : afterCkpt c x) (h2 : keyLt x r) : afterCkpt c r :=
  (afterCkpt_iff_keyRow c r).mpr
    (keyLt_of_keyLt_of_keyLe ((afterCkpt_iff_keyRow c x).mp h1) (keyLe_of_keyLt h2))

/-- Rows of the table strictly after a row of the eligible set are the same
whether filtered from the whole table or from the eligible set. -/
theorem table_filter_keyLt_eq (table : List Row) (c : Option Checkpoint) (b : Nat)
    {x : Row} (hx : x ∈ codeElig table c b) :
    table.filter (fun r => decide (keyLt x r))
      = (codeElig table c b).filter (fun r => decide (keyLt x r)) := by
  cases c with
  | none => rfl
  | some c =>
    by_cases h : c.modified = ""
    · rw [codeElig_falsy table b c h]
    · rw [codeElig_truthy table b c h] at hx ⊢
      rw [List.filter_filter]
      refine (List.filter_congr ?_).symm
      intro r hr
      cases hP : decide (keyLt x r) with
      | false => rfl
      | true =>
        have hkx : keyLt x r := of_decide_eq_true hP
        have hcx : afterCkpt c x := of_decide_eq_true (List.mem_filter.mp hx).2
        have hcr : afterCkpt c r := afterCkpt_trans hcx hkx
        simp only [Bool.true_and, afterB, decide_eq_true_eq]
        exact hcr

/-- One pull step: when eligible rows remain, the batch is the first `b` of
the sorted eligible list and the rows eligible after the returned checkpoint
are exactly the remaining ones. -/
theorem pull_step_drop (table : List Row) {b : Nat} (hb : 1 ≤ b)
    (hpk : table.Pairwise fun a r => a.pk ≠ r.pk)
    (hmod : ∀ r ∈ table, r.modified ≠ "")
    (c : Option Checkpoint)
    (hS : sortRows (codeElig table c b) ≠ []) :
    (pullHandler table c b).documents ≠ [] ∧
    sortRows (codeElig table ((pullHandler table c b).checkpoint) b)
      = (sortRows (codeElig table c b)).drop b := by
  have hdata : runPullQuery table (buildPullQuery c b)
      = (sortRows (codeElig table c b)).take b := runPullQuery_eq table c b
  have hd : runPullQuery table (buildPullQuery c b) ≠ [] := by
    rw [hdata, Ne, List.take_eq_nil_iff]
    push_neg
    exact ⟨by omega, hS⟩
  have hdoc : (pullHandler table c b).documents
      = (sortRows (codeElig table c b)).take b := by
    rw [pullHandler_documents, hdata]
  refine ⟨?_, ?_⟩
  · rw [hdoc, ← hdata]
    exact hd
  · have hck : (pullHandler table c b).checkpoint
        = some (rowToCheckpoint ((runPullQuery table (buildPullQuery c b)).getLast hd)) := by
      simp [pullHandler, hd]
    generalize hxeq : (runPullQuery table (buildPullQuery c b)).getLast hd = x at hck
    have hxlast : ((sortRows (codeElig table c b)).take b).getLast? = some x := by
      have h1 := List.getLast?_eq_getLast (runPullQuery table (buildPullQuery c b)) hd
      rw [hxeq] at h1
      rw [← hdata]
      exact h1
    have hxmem : x ∈ (sortRows (codeElig table c b)).take b := by
      have h1 := List.getLast_mem hd
      rw [hxeq, hdata] at h1
      exact h1
    have hxE : x ∈ codeElig table c b :=
      (sortRows_perm _).mem_iff.mp (List.take_subset _ _ hxmem)
    have hxT : x ∈ table := codeElig_subset table c b x hxE
    have hxmod : (rowToCheckpoint x).modified ≠ "" := hmod x hxT
    rw [hck, codeElig_truthy table b (rowToCheckpoint x) hxmod]
    have hPB : afterB (rowToCheckpoint x) = fun r => decide (keyLt x r) := rfl
    rw [hPB]
    have hpkE : List.Pairwise (fun a r => a.pk ≠ r.pk) (codeElig table c b) := by
      cases c with
      | none => exact hpk
      | some c0 =>
        by_cases h : c0.modified = ""
        · rw [codeElig_falsy table b c0 h]
          exact hpk
        · rw [codeElig_truthy table b c0 h]
          exact hpk.filter _
    have hpkS : List.Pairwise (fun a r => a.pk ≠ r.pk) (sortRows (codeElig table c b)) :=
      (pkne_perm (sortRows_perm _)).mpr hpkE
    have hSsorted : List.Pairwise keyLt (sortRows (codeElig table c b)) :=
      pairwise_keyLt_of_sorted (sortRows_sorted _) hpkS
    have hSf : (sortRows (codeElig table c b)).filter (fun r => decide (keyLt x r))
        = (sortRows (codeElig table c b)).drop b :=
      sorted_filter_after_take hSsorted hxlast
    have htf := table_filter_keyLt_eq table c b hxE
    have hperm : (table.filter (fun r => decide (keyLt x r))).Perm
        ((sortRows (codeElig table c b)).drop b) := by
      rw [htf, ← hSf]
      exact List.Perm.filter _ (sortRows_perm _).symm
    refine List.eq_of_perm_of_sorted (r := keyLt) ?_ ?_ ?_
    · exact (sortRows_perm _).trans hperm
    · have hpkf : List.Pairwise (fun a r => a.pk ≠ r.pk)
          (table.filter fun r => decide (keyLt x r)) := hpk.filter _
      exact pairwise_keyLt_of_sorted (sortRows_sorted _)
        ((pkne_perm (sortRows_perm _)).mpr hpkf)
    · exact List.Pairwise.sublist (List.drop_sublist b _) hSsorted

theorem pullN_succ (table : List Row) (b : Nat) (c : Option Checkpoint) (n : Nat) :
    pullN table b c (n + 1)
      = if (pullHandler table c b).documents = [] then []
        else (pullHandler table c b).documents
          ++ pullN table b (pullHandler table c b).checkpoint n := rfl

/-- Iterated pulls with enough fuel return the sorted eligible list. -/
theorem pullN_sorted_elig (table : List Row) {b : Nat} (hb : 1 ≤ b)
    (hpk : table.Pairwise fun a r => a.pk ≠ r.pk)
    (hmod : ∀ r ∈ table, r.modified ≠ "") :
    ∀ (n : Nat) (c : Option Checkpoint),
      (sortRows (codeElig table c b)).length ≤ n * b →
      pullN table b c (n + 1) = sortRows (codeElig table c b) := by
  intro n
  induction n with
  | zero =>
    intro c hlen
    have hnil : sortRows (codeElig table c b) = [] := by
      rw [← List.length_eq_zero]
      omega
    have hdoc : (pullHandler table c b).documents = [] := by
      rw [pullHandler_documents, runPullQuery_eq, hnil]
      exact List.take_nil
    rw [pullN_succ, if_pos hdoc, hnil]
  | succ n ih =>
    intro c hlen
    by_cases hS : sortRows (codeElig table c b) = []
    · have hdoc : (pullHandler table c b).documents = [] := by
        rw [pullHandler_documents, runPullQuery_eq, hS]
        exact List.take_nil
      rw [pullN_succ, if_pos hdoc, hS]
    · obtain ⟨hdocne, hdrop⟩ := pull_step_drop table hb hpk hmod c hS
      have hdoc : (pullHandler table c b).documents
          = (sortRows (codeElig table c b)).take b := by
        rw [pullHandler_documents, runPullQuery_eq]
      have hnext : (sortRows (codeElig table
          ((pullHandler table c b).checkpoint) b)).length ≤ n * b := by
        rw [hdrop, List.length_drop]
        rw [Nat.succ_mul] at hlen
        omega
      rw [pullN_succ, if_neg hdocne, ih ((pullHandler table c b).checkpoint) hnext,
        hdrop, hdoc]
      exact List.take_append_drop b _

/-- The specification's eligible set for the iterated pass: every row, or
every row strictly after the initial checkpoint. -/
def eligClaim (table : List Row) : Option Checkpoint → List Row
  | none => table
  | some c => table.filter (afterB c)

theorem sortRows_codeElig_eq_eligClaim (table : List Row) (b : Nat)
    (hmod : ∀ r ∈ table, r.modified ≠ "") (c : Option Checkpoint) :
    sortRows (codeElig table c b) = sortRows (eligClaim table c) := by
  cases c with
  | none => rfl
  | some c0 =>
    by_cases h : c0.modified = ""
    · rw [codeElig_falsy table b c0 h]
      show _ = sortRows (List.filter (afterB c0) table)
      have hfe : List.filter (afterB c0) table = table := by
        rw [List.filter_eq_self]
        intro a ha
        simp only [afterB, decide_eq_true_eq]
        show strLt c0.modified a.modified ∨
          (c0.modified = a.modified ∧ strLt c0.primaryKeyValue a.pk)
        rw [h]
        exact Or.inl (strLt_empty (hmod a ha))
      rw [hfe]
    · rw [codeElig_truthy table b c0 h]
      rfl

/-- C2 fails as stated: over a one-row table whose row has an empty modified
value, two pulls with batch size one from an empty checkpoint deliver the
same row twice (the returned checkpoint is falsy, so the second pull restarts
from the beginning rather than stopping), violating the exactly-once pass. -/
theorem pull_full_pass_cex :
    (pullHandler [rowEmptyA] none 1).documents = [rowEmptyA] ∧
    (pullHandler [rowEmptyA] none 1).checkpoint
      = some { modified := "", primaryKeyValue := "a" } ∧
    (pullHandler [rowEmptyA]
        (some { modified := "", primaryKeyValue := "a" }) 1).documents = [rowEmptyA] ∧
    pullN [rowEmptyA] 1 none 2 = [rowEmptyA, rowEmptyA] ∧
    ¬ (pullN [rowEmptyA] 1 none 2).Nodup :=
  ⟨by decide, by decide, by decide, by decide, by decide⟩

/-- C2 amended: provided the batch size is at least one, primary keys are
pairwise distinct (the table's key integrity) and every row carries a
non-empty modified value, iterated pulls with a fixed batch size — feeding
each returned checkpoint into the next call until an empty batch — return, as
the concatenation of all batches, exactly the rows eligible after the initial
checkpoint, each exactly once, in ascending `(modified, primaryKey)` order,
however the batch boundaries fall among rows sharing a modified value; in
particular two rows with identical modified values and primary keys
`"2" < "3"` are delivered as `"2"` then `"3"` by two pulls of batch size one
from the empty checkpoint. -/
theorem pull_full_pass (table : List Row) (c₀ : Option Checkpoint) (b : Nat)
    (hb : 1 ≤ b)
    (hpk : table.Pairwise fun a r => a.pk ≠ r.pk)
    (hmod : ∀ r ∈ table, r.modified ≠ "") :
    pullN table b c₀ (table.length + 1) = sortRows (eligClaim table c₀) ∧
    (pullHandler [rowT3, rowT2] none 1).documents = [rowT2] ∧
    (pullHandler [rowT3, rowT2]
        ((pullHandler [rowT3, rowT2] none 1).checkpoint) 1).documents = [rowT3] ∧
    pullN [rowT3, rowT2] 1 none 3 = [rowT2, rowT3] := by
  refine ⟨?_, by decide, by decide, by decide⟩
  rw [← sortRows_codeElig_eq_eligClaim table b hmod c₀]
  apply pullN_sorted_elig table hb hpk hmod
  have h1 : (sortRows (codeElig table c₀ b)).length ≤ table.length := by
    rw [(sortRows_perm _).length_eq]
    cases c₀ with
    | none => exact le_refl _
    | some c =>
      by_cases h : c.modified = ""
      · rw [codeElig_falsy table b c h]
      · rw [codeElig_truthy table b c h]
        exact List.length_filter_le _ _
  calc (sortRows (codeElig table c₀ b)).length ≤ table.length := h1
    _ ≤ table.length * b := Nat.le_mul_of_pos_right _ (by omega)

/-- Witness for the amended C2 at a concrete input: the two-row same-timestamp
table is fully delivered in primary-key order by batches of one. -/
theorem pull_full_pass_witness :
    pullN [rowT3, rowT2] 1 none 3 = sortRows (eligClaim [rowT3, rowT2] none) :=
  (pull_full_pass [rowT3, rowT2] none 1 (by decide) (by decide) (by decide)).1

end RxdbSupabase
